import Mathlib

/-!
A verification development for the EntityDynamics rigid-body simulation
engine.  C++ source functions are embedded shallowly as Lean definitions:
the `scalar` floating-point type is embedded as `ℚ` (exact arithmetic),
entity handles as `ℕ`, registries/components as explicit state records,
and machine integers as `ℕ` with explicit bounds where width matters.
-/

namespace edyn

/-- Embedding of `edyn::vector3`: a 3-component vector of scalars. -/
structure vector3 where
  x : ℚ
  y : ℚ
  z : ℚ
deriving DecidableEq, Repr

instance : Inhabited vector3 := ⟨⟨0, 0, 0⟩⟩

instance : Add vector3 := ⟨fun a b => ⟨a.x + b.x, a.y + b.y, a.z + b.z⟩⟩

instance : Sub vector3 := ⟨fun a b => ⟨a.x - b.x, a.y - b.y, a.z - b.z⟩⟩

instance : Neg vector3 := ⟨fun a => ⟨-a.x, -a.y, -a.z⟩⟩

instance : SMul ℚ vector3 := ⟨fun s a => ⟨s * a.x, s * a.y, s * a.z⟩⟩

/-- Zero vector, embedding of `edyn::vector3_zero`. -/
def vector3_zero : vector3 := ⟨0, 0, 0⟩

/-- Embedding of `edyn::dot` for `vector3`. -/
def dot (a b : vector3) : ℚ := a.x * b.x + a.y * b.y + a.z * b.z

/-- Embedding of `edyn::cross`. -/
def cross (a b : vector3) : vector3 :=
  ⟨a.y * b.z - a.z * b.y, a.z * b.x - a.x * b.z, a.x * b.y - a.y * b.x⟩

/-- Embedding of `edyn::length_sqr`. -/
def length_sqr (a : vector3) : ℚ := dot a a

/-- Embedding of `edyn::quaternion` (components x, y, z, w). -/
structure quaternion where
  x : ℚ
  y : ℚ
  z : ℚ
  w : ℚ
deriving DecidableEq, Repr

/-- Embedding of `edyn::conjugate` for quaternions. -/
def conjugate (q : quaternion) : quaternion := ⟨-q.x, -q.y, -q.z, q.w⟩

/-- Hamilton product of two quaternions (embedding of `operator*`). -/
def qmul (a b : quaternion) : quaternion :=
  ⟨a.w * b.x + a.x * b.w + a.y * b.z - a.z * b.y,
   a.w * b.y - a.x * b.z + a.y * b.w + a.z * b.x,
   a.w * b.z + a.x * b.y - a.y * b.x + a.z * b.w,
   a.w * b.w - a.x * b.x - a.y * b.y - a.z * b.z⟩

/-- Modelled from the spec: `edyn::rotate(q, v)` (the quaternion math header is
not part of the sources at hand) rotates vector `v` by quaternion `q`; it is
the standard sandwich product `q * v * conjugate(q)`, whose vector part is
taken.  None of the theorems below depend on the concrete formula. -/
def rotate (q : quaternion) (v : vector3) : vector3 :=
  let p := qmul (qmul q ⟨v.x, v.y, v.z, 0⟩) (conjugate q)
  ⟨p.x, p.y, p.z⟩

/-- Embedding of `edyn::matrix3x3` as three row vectors; `mvmul` is the
matrix-vector product `operator*(matrix3x3, vector3)`. -/
structure matrix3x3 where
  row0 : vector3
  row1 : vector3
  row2 : vector3
deriving DecidableEq, Repr

/-- Matrix-vector product (each component is the dot of a row with `v`). -/
def mvmul (m : matrix3x3) (v : vector3) : vector3 :=
  ⟨dot m.row0 v, dot m.row1 v, dot m.row2 v⟩

/-! ### Sphere-versus-plane collision (`collide_sphere_plane.cpp`) -/

/-- Embedding of `edyn::sphere_shape`. -/
structure sphere_shape where
  radius : ℚ
deriving DecidableEq, Repr

/-- Embedding of `edyn::plane_shape`: a normal and a constant; the plane is
the set of points whose projection on the normal equals the constant. -/
structure plane_shape where
  normal : vector3
  constant : ℚ
deriving DecidableEq, Repr

/-- Embedding of `collision_result::collision_point`. -/
structure collision_point where
  pivotA : vector3
  pivotB : vector3
  normalB : vector3
  distance : ℚ
deriving DecidableEq, Repr

/-- Embedding of `collide(sphere_shape, plane_shape)` from
`src/edyn/collision/collide_sphere_plane.cpp`.  The `collision_result`
fixed-capacity array plus `num_points` counter is modelled as the list of
its valid points.  The `threshold` parameter is bound but never read,
exactly as in the source. -/
def collide_sphere_plane (sphere : sphere_shape) (posA : vector3) (ornA : quaternion)
    (plane : plane_shape) (posB : vector3) (ornB : quaternion)
    (threshold : ℚ) : List collision_point :=
  let normal := rotate ornB plane.normal
  let center := posB + rotate ornB (plane.constant • plane.normal)
  let d := posA - center
  let l := dot normal d
  if sphere.radius < l then []
  else
    [{ pivotA := rotate (conjugate ornA) ((-sphere.radius) • normal)
     , pivotB := rotate (conjugate ornB) (d - l • normal - center)
     , normalB := plane.normal
     , distance := l - sphere.radius }]

/-! ### Free-fall integration (`apply_gravity.hpp`, `solver.cpp`) -/

/-- Linear state of a single rigid body: position and linear velocity. -/
structure body_state where
  pos : vector3
  vel : vector3
deriving DecidableEq, Repr

/-- One fixed step of the solver acting on the linear state of a lone dynamic
body with no contacts or constraints: `apply_gravity` adds `g * dt` to the
velocity, the island solver produces zero velocity deltas (there are no
constraint rows), and `apply_solution` then adds the (unchanged) velocity
times `dt` to the position. -/
def free_fall_step (g : vector3) (dt : ℚ) (s : body_state) : body_state :=
  let v := s.vel + dt • g
  { pos := s.pos + dt • v, vel := v }

/-- Iterate `free_fall_step` for `n` fixed steps. -/
def free_fall (g : vector3) (dt : ℚ) (s : body_state) : ℕ → body_state
  | 0 => s
  | n + 1 => free_fall_step g dt (free_fall g dt s n)

/-! ### Spin angle representation (`accumulate_discontinuities.hpp`) -/

/-- The `spin_angle` component as consumed by `accumulate_discontinuities`
(field accesses `.count` and `.s`): an integer turn count plus a scalar
residual.  (The snapshot also carries an older, shadowed `comp/spin.hpp`
declaring a scalar-only variant; the networking system cited by the spec
requires and uses this two-field representation.) -/
structure spin_angle where
  count : ℤ
  s : ℚ
deriving DecidableEq, Repr

/-- The total angle denoted by a `spin_angle` value: `count` full turns of
`pi2` (the constant 2π, abstracted as a parameter) plus the residual. -/
def spin_angle_total (pi2 : ℚ) (a : spin_angle) : ℚ := a.count * pi2 + a.s

/-- Embedding of the spin branch of `accumulate_discontinuities`:
`dis.offset += (p_spin.count - spin.count) * pi2 + p_spin.s - spin.s`. -/
def accumulate_spin_discontinuity (pi2 : ℚ) (p_spin spin : spin_angle)
    (offset : ℚ) : ℚ :=
  offset + ((p_spin.count - spin.count) * pi2 + p_spin.s - spin.s)

/-! ### Constraint rows (`constraint_util.cpp`) -/

/-- Embedding of `constraint_row_options` (fields used by `prepare_row`). -/
structure constraint_row_options where
  error : ℚ
  erp : ℚ
  restitution : ℚ
deriving DecidableEq, Repr

/-- Embedding of the two-body fields of `constraint_row` used by
`prepare_row` and by the contact solver.  The Jacobian is the array of four
3-vectors `J[0..3]`; the `dvA/dwA/dsA/dvB/dwB/dsB` accumulator pointers of
the C++ struct are modelled separately as an explicit `delta_state` record
passed to the functions that write through them. -/
structure constraint_row where
  J : Fin 4 → vector3
  inv_mA : ℚ
  inv_IA : matrix3x3
  inv_mB : ℚ
  inv_IB : matrix3x3
  eff_mass : ℚ
  rhs : ℚ
  impulse : ℚ
  lower_limit : ℚ
  upper_limit : ℚ
  spin_axis : Fin 2 → vector3

/-- Embedding of `get_relative_speed` from `constraint_util.cpp`. -/
def get_relative_speed (J : Fin 4 → vector3)
    (linvelA angvelA linvelB angvelB : vector3) : ℚ :=
  dot (J 0) linvelA + dot (J 1) angvelA + dot (J 2) linvelB + dot (J 3) angvelB

/-- Embedding of the four-vector overload of `get_effective_mass` from
`constraint_util.cpp`. -/
def get_effective_mass (J : Fin 4 → vector3)
    (inv_mA : ℚ) (inv_IA : matrix3x3) (inv_mB : ℚ) (inv_IB : matrix3x3) : ℚ :=
  let J_invM_JT := dot (J 0) (J 0) * inv_mA +
                   dot (mvmul inv_IA (J 1)) (J 1) +
                   dot (J 2) (J 2) * inv_mB +
                   dot (mvmul inv_IB (J 3)) (J 3)
  1 / J_invM_JT

/-- Embedding of `prepare_row` from `constraint_util.cpp`: computes the
effective mass and the right-hand side of a constraint row. -/
def prepare_row (row : constraint_row) (options : constraint_row_options)
    (linvelA angvelA linvelB angvelB : vector3) : constraint_row :=
  let J_invM_JT := dot (row.J 0) (row.J 0) * row.inv_mA +
                   dot (mvmul row.inv_IA (row.J 1)) (row.J 1) +
                   dot (row.J 2) (row.J 2) * row.inv_mB +
                   dot (mvmul row.inv_IB (row.J 3)) (row.J 3)
  let relvel := dot (row.J 0) linvelA + dot (row.J 1) angvelA +
                dot (row.J 2) linvelB + dot (row.J 3) angvelB
  { row with
    eff_mass := 1 / J_invM_JT
    rhs := -(options.error * options.erp + relvel * (1 + options.restitution)) }

/-- Specification-side helper: the four 3-vectors of a Jacobian (or of the
two bodies' velocities) stacked into a single 12-dimensional vector. -/
def stack12 (vs : Fin 4 → vector3) : Fin 12 → ℚ
  | 0 => (vs 0).x
  | 1 => (vs 0).y
  | 2 => (vs 0).z
  | 3 => (vs 1).x
  | 4 => (vs 1).y
  | 5 => (vs 1).z
  | 6 => (vs 2).x
  | 7 => (vs 2).y
  | 8 => (vs 2).z
  | 9 => (vs 3).x
  | 10 => (vs 3).y
  | 11 => (vs 3).z

/-- Pack four vectors into a `Fin 4`-indexed family. -/
def stack4 (a b c d : vector3) : Fin 4 → vector3
  | 0 => a
  | 1 => b
  | 2 => c
  | 3 => d

/-- Specification-side definition of the inverse mass matrix
`M⁻¹ = diag(1/mA·I, I_A⁻¹, 1/mB·I, I_B⁻¹)`: a 12×12 block-diagonal matrix
whose four 3×3 blocks are the scalar inverse masses times the 3×3 identity
and the two inverse inertia tensors; entries outside the blocks are zero. -/
def inv_mass_matrix (inv_mA : ℚ) (inv_IA : matrix3x3)
    (inv_mB : ℚ) (inv_IB : matrix3x3) : Matrix (Fin 12) (Fin 12) ℚ :=
  Matrix.of fun i =>
    match i with
    | 0 => fun j => match j with | 0 => inv_mA | _ => 0
    | 1 => fun j => match j with | 1 => inv_mA | _ => 0
    | 2 => fun j => match j with | 2 => inv_mA | _ => 0
    | 3 => fun j => match j with
      | 3 => inv_IA.row0.x | 4 => inv_IA.row0.y | 5 => inv_IA.row0.z | _ => 0
    | 4 => fun j => match j with
      | 3 => inv_IA.row1.x | 4 => inv_IA.row1.y | 5 => inv_IA.row1.z | _ => 0
    | 5 => fun j => match j with
      | 3 => inv_IA.row2.x | 4 => inv_IA.row2.y | 5 => inv_IA.row2.z | _ => 0
    | 6 => fun j => match j with | 6 => inv_mB | _ => 0
    | 7 => fun j => match j with | 7 => inv_mB | _ => 0
    | 8 => fun j => match j with | 8 => inv_mB | _ => 0
    | 9 => fun j => match j with
      | 9 => inv_IB.row0.x | 10 => inv_IB.row0.y | 11 => inv_IB.row0.z | _ => 0
    | 10 => fun j => match j with
      | 9 => inv_IB.row1.x | 10 => inv_IB.row1.y | 11 => inv_IB.row1.z | _ => 0
    | 11 => fun j => match j with
      | 9 => inv_IB.row2.x | 10 => inv_IB.row2.y | 11 => inv_IB.row2.z | _ => 0

/-! ### Broadphase pair filtering (`broadphase_main.cpp`) -/

/-- Embedding of `edyn::collision_filter`: a group bitmask and a mask
bitmask (unsigned integers; bit width is irrelevant to the bitwise tests). -/
structure collision_filter where
  group : ℕ
  mask : ℕ
deriving DecidableEq, Repr

/-- The registry state read by `broadphase_main`: per-entity island
containers, dynamic tags and collision filters, the manifold map and the
AABB intersection test results.  Entities are natural numbers. -/
structure broadphase_env where
  island_entities : ℕ → List ℕ
  dynamic : ℕ → Bool
  filter : ℕ → collision_filter
  manifold_exists : ℕ → ℕ → Bool
  aabb_intersect : ℕ → ℕ → Bool

/-- Embedding of `broadphase_main::should_collide`.  The C++ early returns
are compiled into nested conditionals; the final collision-filter test
`(group0 & mask1) > 0 && (group1 & mask0) > 0` is reached from either
dynamic-entity branch.  Dereferencing `container0.entities.begin()` is
modelled as `List.headD` (a dynamic entity always resides in exactly one
island). -/
def should_collide (env : broadphase_env) (e0 e1 : ℕ) : Bool :=
  if e0 = e1 then false
  else if env.dynamic e0 then
    if (env.island_entities e1).contains ((env.island_entities e0).headD 0) then false
    else decide (0 < (env.filter e0).group &&& (env.filter e1).mask)
         && decide (0 < (env.filter e1).group &&& (env.filter e0).mask)
  else if env.dynamic e1 then
    if (env.island_entities e0).contains ((env.island_entities e1).headD 0) then false
    else decide (0 < (env.filter e0).group &&& (env.filter e1).mask)
         && decide (0 < (env.filter e1).group &&& (env.filter e0).mask)
  else false

/-- The guard under which `intersect_islands` and `intersect_island_np`
call `make_contact_manifold` for a candidate pair returned by a tree
query: the pair must pass `should_collide`, must not already have a
manifold, and the AABBs must intersect. -/
def manifold_creation_guard (env : broadphase_env) (eA eB : ℕ) : Bool :=
  should_collide env eA eB && !(env.manifold_exists eA eB) && env.aabb_intersect eA eB

/-- The pairs for which one broadphase update creates a contact manifold,
given the candidate pairs produced by the AABB tree queries of
`intersect_islands` / `intersect_island_np`. -/
def broadphase_created_pairs (env : broadphase_env)
    (candidates : List (ℕ × ℕ)) : List (ℕ × ℕ) :=
  candidates.filter fun p => manifold_creation_guard env p.1 p.2

/-! ### Contact materials (`narrowphase.cpp`, `constraint_util.cpp`) -/

/-- Embedding of `edyn::material` (a `material_base` plus the mixing id). -/
structure material where
  restitution : ℚ
  friction : ℚ
  spin_friction : ℚ
  roll_friction : ℚ
  stiffness : ℚ
  damping : ℚ
  id : ℕ
deriving DecidableEq, Repr

/-- Embedding of `edyn::contact_point` (fields of the `emplace` call in
`process_collision`). -/
structure contact_point where
  body : ℕ × ℕ
  pivotA : vector3
  pivotB : vector3
  normalB : vector3
  friction : ℚ
  restitution : ℚ
  lifetime : ℕ
  distance : ℚ
deriving DecidableEq, Repr

instance : Inhabited contact_point :=
  ⟨⟨(0, 0), vector3_zero, vector3_zero, vector3_zero, 0, 0, 0, 0⟩⟩

/-- Modelled from the spec: the material-mix table (its header
`edyn/dynamics/material_mixing.hpp` is not under the sources at hand) is
"an unordered-pair map `(id0, id1) → base-material`"; `try_get` returns the
entry for the unordered pair of ids, if any. -/
def material_mix_table : Type := List ((ℕ × ℕ) × material)

/-- Lookup of the unordered id pair in the mix table. -/
def material_table_try_get (table : material_mix_table) (ids : ℕ × ℕ) :
    Option material :=
  (List.find? (fun e => (e.1.1 == ids.1 && e.1.2 == ids.2)
      || (e.1.1 == ids.2 && e.1.2 == ids.1)) table).map Prod.snd

/-- Modelled from the spec: `material_mix_restitution` (in the missing
`material_mixing.hpp`) realizes "restitution = product of the two bodies'
restitutions" for the non-override case. -/
def material_mix_restitution (r0 r1 : ℚ) : ℚ := r0 * r1

/-- Embedding of the contact-point coefficient assignment in
`create_contact_constraint` (`narrowphase.cpp` lines 53-57):
`cp.restitution = materialA.restitution * materialB.restitution` and
`cp.friction = materialA.friction * materialB.friction`.  The function has
registry access — and through it the material-mix table in the registry
context — which is made explicit here as the `table` argument; the source
never reads it when setting up the point. -/
def create_contact_constraint_mix (table : material_mix_table)
    (materialA materialB : material) (cp : contact_point) : contact_point :=
  { cp with
    restitution := materialA.restitution * materialB.restitution
    friction := materialA.friction * materialB.friction }

/-- The restitution value `make_contact_manifold`
(`constraint_util.cpp` lines 81-88) computes for a new manifold: the mix
table entry for the unordered pair of material ids if present, otherwise
`material_mix_restitution` of the two restitutions. -/
def make_contact_manifold_restitution (table : material_mix_table)
    (material0 material1 : material) : ℚ :=
  match material_table_try_get table (material0.id, material1.id) with
  | some m => m.restitution
  | none => material_mix_restitution material0.restitution material1.restitution

/-- Whether `make_contact_manifold` tags the new manifold with
`contact_manifold_with_restitution`: the computed restitution exceeds
`EDYN_EPSILON` (abstracted as the parameter `eps`). -/
def make_contact_manifold_with_restitution (eps : ℚ) (table : material_mix_table)
    (material0 material1 : material) : Bool :=
  decide (eps < make_contact_manifold_restitution table material0 material1)

/-- Statement of the claim's rule for a new contact point's restitution:
the mix-table override wins when an entry exists for the unordered pair of
material ids, otherwise the product of the two restitutions.  (Defined from
the claim's words, to be compared with the code's behaviour.) -/
def claimed_new_point_restitution (table : material_mix_table)
    (materialA materialB : material) : ℚ :=
  match material_table_try_get table (materialA.id, materialB.id) with
  | some m => m.restitution
  | none => materialA.restitution * materialB.restitution

/-! ### Contact point pruning (`narrowphase.cpp`) -/

/-- Embedding of the removal condition tested by `prune`
(`narrowphase.cpp` lines 272-279): with world pivots
`pA = posA + rotate(ornA, pivotA)`, `pB = posB + rotate(ornB, pivotB)`,
world normal `n = rotate(ornB, normalB)`, `d = pA - pB`, the separation
along the normal is `dn = dot(d, n)` and the tangential part is
`dp = d - dn * n`; the point is removed when `dn > threshold` or
`length_sqr(dp) > threshold²`.  The constant `contact_breaking_threshold`
is abstracted as the parameter `threshold`. -/
def prune_cond (posA : vector3) (ornA : quaternion) (posB : vector3)
    (ornB : quaternion) (threshold : ℚ) (cp : contact_point) : Bool :=
  let pA := posA + rotate ornA cp.pivotA
  let pB := posB + rotate ornB cp.pivotB
  let n := rotate ornB cp.normalB
  let d := pA - pB
  let dn := dot d n
  let dp := d - dn • n
  decide (dn > threshold) || decide (length_sqr dp > threshold * threshold)

/-- One swap-removal of `prune`: `manifold.point[k] = manifold.point[last]`
followed by clearing the last slot (shrinking the point array by one). -/
def swap_remove_last {α : Type} [Inhabited α] (l : List α) (k : ℕ) : List α :=
  (l.set k (l.getD (l.length - 1) default)).dropLast

/-- The loop of `prune`: `for (i = num_points; i > 0; --i)` tests point
`k = i - 1` and swap-removes it when the condition holds.  The fuel
argument is the loop counter `i`. -/
def prune_aux {α : Type} [Inhabited α] (cond : α → Bool) (l : List α) :
    ℕ → List α
  | 0 => l
  | i + 1 =>
      if cond (l.getD i default) then prune_aux cond (swap_remove_last l i) i
      else prune_aux cond l i

/-- Embedding of `prune` from `narrowphase.cpp`: removes every separating
contact point of the manifold (the registry bookkeeping — destroying the
point entity and updating dirty flags — is not modelled; the point list is
the manifold's `point` array with entities dereferenced). -/
def prune (posA : vector3) (ornA : quaternion) (posB : vector3)
    (ornB : quaternion) (threshold : ℚ)
    (points : List contact_point) : List contact_point :=
  prune_aux (prune_cond posA ornA posB ornB threshold) points points.length

/-! ### Friction row pair solving (`contact_constraint.cpp`) -/

/-- Embedding of `contact_friction_row` (fields used by
`solve_friction_row_pair`). -/
structure contact_friction_row where
  J : Fin 4 → vector3
  impulse : ℚ
  eff_mass : ℚ
  rhs : ℚ

/-- Embedding of `contact_friction_row_pair`. -/
structure contact_friction_row_pair where
  row : Fin 2 → contact_friction_row
  friction_coefficient : ℚ

/-- The targets of the `dvA/dwA/dsA/dvB/dwB/dsB` accumulator pointers of a
`constraint_row`: the per-body velocity deltas being accumulated by the
solver.  A `none` spin component models a null `delta_spin` pointer. -/
structure delta_state where
  dvA : vector3
  dwA : vector3
  dsA : Option ℚ
  dvB : vector3
  dwB : vector3
  dsB : Option ℚ

/-- The spin contribution `spin_axis[0] * (*dsA)` added to body A's angular
delta when computing relative speeds (zero when `dsA` is null). -/
def friction_spin_vec_A (normal_row : constraint_row) (st : delta_state) : vector3 :=
  match st.dsA with
  | some s => s • normal_row.spin_axis 0
  | none => vector3_zero

/-- The spin contribution for body B. -/
def friction_spin_vec_B (normal_row : constraint_row) (st : delta_state) : vector3 :=
  match st.dsB with
  | some s => s • normal_row.spin_axis 1
  | none => vector3_zero

/-- The unclamped accumulated impulse of friction row `i` in
`solve_friction_row_pair`: the row's previous impulse plus
`(rhs - delta_relspd) * eff_mass`. -/
def friction_unclamped_impulse (frp : contact_friction_row_pair)
    (normal_row : constraint_row) (st : delta_state) (i : Fin 2) : ℚ :=
  let fr := frp.row i
  let delta_relspd := get_relative_speed fr.J
    st.dvA (st.dwA + friction_spin_vec_A normal_row st)
    st.dvB (st.dwB + friction_spin_vec_B normal_row st)
  fr.impulse + (fr.rhs - delta_relspd) * fr.eff_mass

/-- The application step of `solve_friction_row_pair` for one friction row:
adds the linear impulse through the inverse masses and the angular impulse
through the inverse inertias, splitting the angular delta into a spin
component and a remainder when a `delta_spin` accumulator is present. -/
def apply_friction_row_delta (normal_row : constraint_row) (J : Fin 4 → vector3)
    (delta : ℚ) (st : delta_state) : delta_state :=
  let dvA := st.dvA + (normal_row.inv_mA * delta) • J 0
  let dvB := st.dvB + (normal_row.inv_mB * delta) • J 2
  let deltaA := delta • mvmul normal_row.inv_IA (J 1)
  let deltaB := delta • mvmul normal_row.inv_IB (J 3)
  let wsA : vector3 × Option ℚ :=
    match st.dsA with
    | some s =>
        let spin := dot (normal_row.spin_axis 0) deltaA
        (st.dwA + (deltaA - spin • normal_row.spin_axis 0), some (s + spin))
    | none => (st.dwA + deltaA, none)
  let wsB : vector3 × Option ℚ :=
    match st.dsB with
    | some s =>
        let spin := dot (normal_row.spin_axis 1) deltaB
        (st.dwB + (deltaB - spin • normal_row.spin_axis 1), some (s + spin))
    | none => (st.dwB + deltaB, none)
  { dvA := dvA, dwA := wsA.1, dsA := wsA.2, dvB := dvB, dwB := wsB.1, dsB := wsB.2 }

/-- Embedding of `internal::solve_friction_row_pair` from
`contact_constraint.cpp`.  The two unclamped impulses are computed from the
current accumulated velocity deltas; if their squared 2D length exceeds
`(friction_coefficient * normal_row.impulse)²` the impulse vector is
rescaled to that length (or zeroed when its length is not above
`EDYN_EPSILON`, abstracted as `eps`); the per-row deltas are then applied
to the velocity deltas.  The value `impulse_len` stands for
`std::sqrt(impulse_len_sqr)`; theorems about this function hypothesize
`impulse_len ≥ 0` and `impulse_len² = impulse_len_sqr`. -/
def solve_friction_row_pair (frp : contact_friction_row_pair)
    (normal_row : constraint_row) (st : delta_state) (eps impulse_len : ℚ) :
    contact_friction_row_pair × delta_state :=
  let u0 := friction_unclamped_impulse frp normal_row st 0
  let u1 := friction_unclamped_impulse frp normal_row st 1
  let impulse_len_sqr := u0 ^ 2 + u1 ^ 2
  let max_impulse_len := frp.friction_coefficient * normal_row.impulse
  let clamped : ℚ × ℚ :=
    if impulse_len_sqr > max_impulse_len ^ 2 then
      if impulse_len > eps then
        (u0 / impulse_len * max_impulse_len, u1 / impulse_len * max_impulse_len)
      else (0, 0)
    else (u0, u1)
  let delta0 := clamped.1 - (frp.row 0).impulse
  let delta1 := clamped.2 - (frp.row 1).impulse
  let st0 := apply_friction_row_delta normal_row (frp.row 0).J delta0 st
  let st1 := apply_friction_row_delta normal_row (frp.row 1).J delta1 st0
  ({ frp with
     row := fun i =>
       match i with
       | 0 => { frp.row 0 with impulse := clamped.1 }
       | 1 => { frp.row 1 with impulse := clamped.2 } }, st1)

/-! ### Island merging (`island_util.cpp`) -/

/-- Embedding of `edyn::island`: the member entity list and the sleep
timestamp (`UINT64_MAX` when not counting down to sleep). -/
structure island where
  entities : List ℕ
  sleep_step : ℕ
deriving DecidableEq, Repr

/-- The value `UINT64_MAX` used as the sentinel sleep step. -/
def UINT64_MAX : ℕ := 2 ^ 64 - 1

/-- The registry state read and written by the island-merge handler:
the `island` components (a partial map over entities), the `island_node`
back-links, the `relation_container` lists, the constraint rows of each
relation (empty when the relation has no constraint), and the
`sleeping_tag` set. -/
structure island_registry where
  islands : ℕ → Option island
  node : ℕ → Option ℕ
  relations : ℕ → List ℕ
  constraint_rows : ℕ → List ℕ
  sleeping : ℕ → Bool

/-- Fetch an island component (the registry `get<island>`; absent islands
read as empty, which never happens on the paths exercised). -/
def get_island (islands : ℕ → Option island) (e : ℕ) : island :=
  (islands e).getD ⟨[], 0⟩

/-- Overwrite an island component. -/
def set_island (islands : ℕ → Option island) (e : ℕ) (isl : island) :
    ℕ → Option island :=
  fun x => if x = e then some isl else islands x

/-- Destroy an island entity (the registry `destroy`). -/
def erase_island (islands : ℕ → Option island) (e : ℕ) : ℕ → Option island :=
  fun x => if x = e then none else islands x

/-- Remove the `sleeping_tag` from every entity in `es`. -/
def clear_sleeping (sleeping : ℕ → Bool) (es : List ℕ) : ℕ → Bool :=
  fun e => if es.contains e then false else sleeping e

/-- Embedding of `wakeup_island` from `island_util.cpp`: resets the sleep
step of the island, and removes the `sleeping_tag` from the island entity,
all its member entities, the relations referring to them, and those
relations' constraint rows. -/
def wakeup_island (reg : island_registry) (island_ent : ℕ) : island_registry :=
  let isle := get_island reg.islands island_ent
  let cleared := island_ent :: isle.entities
      ++ isle.entities.flatMap reg.relations
      ++ isle.entities.flatMap (fun e => (reg.relations e).flatMap reg.constraint_rows)
  { reg with
    islands := set_island reg.islands island_ent { isle with sleep_step := UINT64_MAX }
    sleeping := clear_sleeping reg.sleeping cleared }

/-- Append `x` to the accumulator unless already present — the dedup push
of the `island_ents` collection loop. -/
def push_unique (l : List ℕ) (x : ℕ) : List ℕ :=
  if l.contains x then l else l ++ [x]

/-- The `island_ents` list of `island_on_construct_relation`: the distinct
islands (in first-seen order) of those relation endpoints that have an
`island_node`. -/
def collect_island_ents (node : ℕ → Option ℕ) (rel_entities : List ℕ) : List ℕ :=
  rel_entities.foldl (fun acc ent =>
    match node ent with
    | some island_ent => push_unique acc island_ent
    | none => acc) []

/-- Append the new relation entity to an entity's `relation_container`. -/
def push_relation (relations : ℕ → List ℕ) (e rel : ℕ) : ℕ → List ℕ :=
  fun x => if x = e then relations x ++ [rel] else relations x

/-- The `biggest_idx`/`biggest_size` selection loop: the first island of
the list whose entity count is strictly greater than every earlier one
(starting from index 0 and size 0). -/
def biggest_island (islands : ℕ → Option island) (ents : List ℕ) : ℕ :=
  (ents.foldl (fun acc e =>
      if (get_island islands e).entities.length > acc.2
      then (e, (get_island islands e).entities.length) else acc)
    (ents.headD 0, 0)).1

/-- Embedding of `island_on_construct_relation` from `island_util.cpp`:
registers the new relation in the two endpoint containers, collects the
distinct islands of the endpoints, and when two or more are involved moves
every member of the smaller islands into the biggest one (updating their
`island_node` back-links), destroys the other island entities and wakes
the surviving island; with at most one island involved it only wakes it. -/
def island_on_construct_relation (reg : island_registry) (rel_entity : ℕ)
    (rel_entities : List ℕ) : island_registry :=
  let rels1 := push_relation reg.relations (rel_entities.getD 0 0) rel_entity
  let rels2 := push_relation rels1 (rel_entities.getD 1 0) rel_entity
  let reg1 : island_registry := { reg with relations := rels2 }
  let island_ents := collect_island_ents reg1.node rel_entities
  if island_ents.length < 2 then
    match island_ents with
    | [] => reg1
    | e :: _ => wakeup_island reg1 e
  else
    let biggest_ent := biggest_island reg1.islands island_ents
    let others := island_ents.filter (fun e => e ≠ biggest_ent)
    let moved := others.flatMap (fun e => (get_island reg1.islands e).entities)
    let big := get_island reg1.islands biggest_ent
    let islands1 := set_island reg1.islands biggest_ent
      { big with entities := big.entities ++ moved }
    let node1 := fun e => if moved.contains e then some biggest_ent else reg1.node e
    let islands2 := others.foldl erase_island islands1
    wakeup_island { reg1 with islands := islands2, node := node1 } biggest_ent

/-- A concrete registry with two islands (entity 10 holding body 1 and
entity 11 holding bodies 2 and 3) used to exercise the merge handler. -/
def merge_example_registry : island_registry :=
  { islands := fun e => if e = 10 then some ⟨[1], 5⟩
      else if e = 11 then some ⟨[2, 3], 7⟩ else none
  , node := fun e => if e = 1 then some 10 else if e = 2 then some 11 else none
  , relations := fun _ => []
  , constraint_rows := fun _ => []
  , sleeping := fun _ => true }

/-! ### Triangle mesh serialization (`memory_archive.hpp`, `std_s11n.hpp`,
`triangle_mesh_s11n.hpp`) -/

/-- Little-endian byte emission of `memory_output_archive::write_bytes` for a
`w`-byte unsigned integer value. -/
def writeWord : ℕ → ℕ → List ℕ
  | 0, _ => []
  | w + 1, v => v % 256 :: writeWord w (v / 256)

/-- Byte-wise reader of `memory_input_archive::read_bytes` for a `w`-byte
unsigned integer, returning the value and the remaining stream. -/
def readWord : ℕ → List ℕ → Option (ℕ × List ℕ)
  | 0, s => some (0, s)
  | _ + 1, [] => none
  | w + 1, b :: s => (readWord w s).map fun p => (b + 256 * p.1, p.2)

/-- Reads `w` raw bytes, i.e. one fixed-width vector element. -/
def readBytes : ℕ → List ℕ → Option (List ℕ × List ℕ)
  | 0, s => some ([], s)
  | _ + 1, [] => none
  | w + 1, b :: s => (readBytes w s).map fun p => (b :: p.1, p.2)

/-- Output-archive branch of `serialize(Archive, std::vector<T>)`
(std_s11n.hpp lines 25-34): the 64-bit (8-byte) element count followed by the
bytes of each element in order. Elements are abstracted as byte lists. -/
def serialize_vector (elems : List (List ℕ)) : List ℕ :=
  writeWord 8 elems.length ++ elems.flatten

/-- Element loop of the input-archive branch of
`serialize(Archive, std::vector<T>)`: reads `n` elements of `w` bytes each. -/
def read_chunks (w : ℕ) : ℕ → List ℕ → Option (List (List ℕ) × List ℕ)
  | 0, s => some ([], s)
  | n + 1, s => (readBytes w s).bind fun p =>
      (read_chunks w n p.2).map fun q => (p.1 :: q.1, q.2)

/-- Input-archive branch of `serialize(Archive, std::vector<T>)`: the 64-bit
count then that many `w`-byte elements. -/
def deserialize_vector (w : ℕ) (s : List ℕ) : Option (List (List ℕ) × List ℕ) :=
  (readWord 8 s).bind fun p => read_chunks w p.1 p.2

/-- Inner bit loop of the output branch of
`serialize(Archive, std::vector<bool>)` (std_s11n.hpp lines 54-57):
`set |= vector[start + j] << j` starting from bit index `j`. -/
def pack_bits_aux : List Bool → ℕ → ℕ → ℕ
  | [], _, set => set
  | b :: t, j, set => pack_bits_aux t (j + 1) (set ||| ((if b then 1 else 0) <<< j))

/-- One 32-bit set built from a group of up to 32 bools, bit `j` holding
element `j` of the group. -/
def pack_bits (bs : List Bool) : ℕ := pack_bits_aux bs 0 0

/-- The consecutive groups of (at most) 32 elements of a bool vector: group
`i` covers elements `32 * i + j`, matching `start = i * set_num_bits` and
`count = min(size - start, set_num_bits)` in std_s11n.hpp lines 50-51. -/
def bool_chunks : List Bool → List (List Bool)
  | [] => []
  | b :: t => ((b :: t).take 32) :: bool_chunks ((b :: t).drop 32)
termination_by l => l.length
decreasing_by simp [List.length_drop]; omega

/-- Inner bit loop of the input branch (std_s11n.hpp lines 62-64):
`vector[start + j] = (set & (1 << j)) > 0` for `j < count`. -/
def unpack_bits (set count : ℕ) : List Bool :=
  (List.range count).map fun j => decide (0 < set &&& (1 <<< j))

/-- Output branch of `serialize(Archive, std::vector<bool>)`: the 64-bit size
followed by `ceil(size / 32)` 32-bit (4-byte) sets of packed bits. -/
def serialize_vector_bool (bs : List Bool) : List ℕ :=
  writeWord 8 bs.length ++ (bool_chunks bs).flatMap fun g => writeWord 4 (pack_bits g)

/-- Set loop of the input branch of `serialize(Archive, std::vector<bool>)`,
recursing on the number of elements still to be filled: each step reads one
32-bit set and unpacks `min(remaining, 32)` bits from it. -/
def read_bool_chunks : ℕ → List ℕ → Option (List Bool × List ℕ)
  | 0, s => some ([], s)
  | n + 1, s => (readWord 4 s).bind fun p =>
      (read_bool_chunks (n + 1 - min (n + 1) 32) p.2).map fun q =>
        (unpack_bits p.1 (min (n + 1) 32) ++ q.1, q.2)
termination_by n _ => n
decreasing_by omega

/-- Input branch of `serialize(Archive, std::vector<bool>)`: the 64-bit size
then the packed 32-bit sets. -/
def deserialize_vector_bool (s : List ℕ) : Option (List Bool × List ℕ) :=
  (readWord 8 s).bind fun p => read_bool_chunks p.1 p.2

/-- The two vectors of a `flat_nested_array` in the order archived by
`serialize(Archive, flat_nested_array<T>)` (triangle_mesh_s11n.hpp lines
22-25): `m_data` then `m_range_starts`. -/
structure flat_nested_array where
  m_data : List (List ℕ)
  m_range_starts : List (List ℕ)

/-- The component arrays of a triangle mesh, in the order archived by
`serialize(Archive, triangle_mesh)` (triangle_mesh_s11n.hpp lines 32-45).
Element scalar layout is abstracted: each non-bool array element is a
fixed-width byte list, the two edge bitsets are bool vectors, and the
triangle tree is a list of fixed-width nodes. -/
structure triangle_mesh where
  m_vertices : List (List ℕ)
  m_indices : List (List ℕ)
  m_normals : List (List ℕ)
  m_edge_vertex_indices : List (List ℕ)
  m_vertex_edge_indices : flat_nested_array
  m_adjacent_normals : List (List ℕ)
  m_face_edge_indices : List (List ℕ)
  m_edge_face_indices : List (List ℕ)
  m_is_boundary_edge : List Bool
  m_is_convex_edge : List Bool
  m_triangle_tree : List (List ℕ)

/-- Modelled from the spec: `static_tree_s11n.hpp` is not part of this
snapshot, and the spec lists the triangle AABB tree as the final
length-prefixed array of the mesh layout, so the tree is serialized as one
more length-prefixed vector of fixed-width nodes. -/
def serialize_static_tree (nodes : List (List ℕ)) : List ℕ :=
  serialize_vector nodes

/-- Modelled from the spec: reader inverting `serialize_static_tree`. -/
def deserialize_static_tree (w : ℕ) (s : List ℕ) :
    Option (List (List ℕ) × List ℕ) :=
  deserialize_vector w s

/-- The fixed element byte widths of each mesh array (e.g. `sizeof(vector3)`
for `m_vertices`), parameters of the abstraction. -/
structure mesh_widths where
  w_vertex : ℕ
  w_index : ℕ
  w_normal : ℕ
  w_edge_vertex : ℕ
  w_nested_data : ℕ
  w_range_start : ℕ
  w_adjacent : ℕ
  w_face_edge : ℕ
  w_edge_face : ℕ
  w_tree_node : ℕ

/-- Output-archive pass of `serialize(Archive, triangle_mesh)`
(triangle_mesh_s11n.hpp lines 32-45): the eleven component arrays archived in
declaration order into one byte stream. -/
def serialize_triangle_mesh (m : triangle_mesh) : List ℕ :=
  serialize_vector m.m_vertices ++
  serialize_vector m.m_indices ++
  serialize_vector m.m_normals ++
  serialize_vector m.m_edge_vertex_indices ++
  (serialize_vector m.m_vertex_edge_indices.m_data ++
   serialize_vector m.m_vertex_edge_indices.m_range_starts) ++
  serialize_vector m.m_adjacent_normals ++
  serialize_vector m.m_face_edge_indices ++
  serialize_vector m.m_edge_face_indices ++
  serialize_vector_bool m.m_is_boundary_edge ++
  serialize_vector_bool m.m_is_convex_edge ++
  serialize_static_tree m.m_triangle_tree

/-- Input-archive pass of `serialize(Archive, triangle_mesh)`: the same
eleven arrays read back in the same order. -/
def deserialize_triangle_mesh (w : mesh_widths) (s : List ℕ) :
    Option (triangle_mesh × List ℕ) :=
  (deserialize_vector w.w_vertex s).bind fun p1 =>
  (deserialize_vector w.w_index p1.2).bind fun p2 =>
  (deserialize_vector w.w_normal p2.2).bind fun p3 =>
  (deserialize_vector w.w_edge_vertex p3.2).bind fun p4 =>
  (deserialize_vector w.w_nested_data p4.2).bind fun p5a =>
  (deserialize_vector w.w_range_start p5a.2).bind fun p5b =>
  (deserialize_vector w.w_adjacent p5b.2).bind fun p6 =>
  (deserialize_vector w.w_face_edge p6.2).bind fun p7 =>
  (deserialize_vector w.w_edge_face p7.2).bind fun p8 =>
  (deserialize_vector_bool p8.2).bind fun p9 =>
  (deserialize_vector_bool p9.2).bind fun p10 =>
  (deserialize_static_tree w.w_tree_node p10.2).map fun p11 =>
    (⟨p1.1, p2.1, p3.1, p4.1, ⟨p5a.1, p5b.1⟩, p6.1, p7.1, p8.1,
      p9.1, p10.1, p11.1⟩, p11.2)

/-- A vector field is well formed when its elements all have the field width
and its length fits the 64-bit count. -/
def vec_wf (w : ℕ) (l : List (List ℕ)) : Prop :=
  (∀ e ∈ l, e.length = w) ∧ l.length < 256 ^ 8

/-- Well-formedness of a mesh for given widths: every array has uniform
element width and a length representable in 64 bits. -/
def mesh_wf (w : mesh_widths) (m : triangle_mesh) : Prop :=
  vec_wf w.w_vertex m.m_vertices ∧
  vec_wf w.w_index m.m_indices ∧
  vec_wf w.w_normal m.m_normals ∧
  vec_wf w.w_edge_vertex m.m_edge_vertex_indices ∧
  vec_wf w.w_nested_data m.m_vertex_edge_indices.m_data ∧
  vec_wf w.w_range_start m.m_vertex_edge_indices.m_range_starts ∧
  vec_wf w.w_adjacent m.m_adjacent_normals ∧
  vec_wf w.w_face_edge m.m_face_edge_indices ∧
  vec_wf w.w_edge_face m.m_edge_face_indices ∧
  m.m_is_boundary_edge.length < 256 ^ 8 ∧
  m.m_is_convex_edge.length < 256 ^ 8 ∧
  vec_wf w.w_tree_node m.m_triangle_tree

/-- A small concrete mesh used to instantiate the round-trip theorem. -/
def c7_mesh : triangle_mesh :=
  ⟨[[1, 2, 3], [4, 5, 6]], [[0], [1], [2]], [], [[7, 8]],
   ⟨[[9]], [[0], [1]]⟩, [], [[3, 4]], [],
   [true, false, true], [false], [[1, 2, 3, 4]]⟩

/-- Element widths matching `c7_mesh`. -/
def c7_widths : mesh_widths := ⟨3, 1, 5, 2, 1, 1, 6, 2, 7, 4⟩

/-! ## Theorems -/

/-- The `biggest` selection over a two-element island list picks the second
island exactly when it is strictly larger. -/
theorem biggest_island_pair (islands : ℕ → Option island) (iA iB : ℕ) :
    biggest_island islands [iA, iB]
      = if (get_island islands iB).entities.length
            > (get_island islands iA).entities.length
        then iB else iA := by
  unfold biggest_island
  simp only [List.foldl, List.headD]
  split_ifs <;> first | rfl | omega

/-- Reading back an island just written. -/
theorem get_set_island_same (f : ℕ → Option island) (e : ℕ) (isl : island) :
    get_island (set_island f e isl) e = isl := by
  unfold get_island set_island
  simp

/-- Erasing one island leaves the others readable. -/
theorem erase_island_apply_other (f : ℕ → Option island) (e e' : ℕ) (h : e' ≠ e) :
    erase_island f e e' = f e' := by
  unfold erase_island
  simp [h]

/-- Reading a written island through an erase of a different entity. -/
theorem get_island_erase_set (f : ℕ → Option island) (s t : ℕ) (isl : island)
    (h : s ≠ t) :
    get_island (erase_island (set_island f s isl) t) s = isl := by
  unfold get_island erase_island set_island
  simp [h]

/-- The effect of `island_on_construct_relation` when exactly the two
distinct islands `iA`, `iB` are involved and `s` is the biggest of them
(`t` the other): `s` absorbs `t`'s members, `t` is destroyed, the moved
members point at `s`, and `s` is woken together with all its members. -/
theorem island_merge_aux (reg : island_registry) (rel_entity : ℕ)
    (rel_entities : List ℕ) (iA iB s t : ℕ)
    (hcollect : collect_island_ents reg.node rel_entities = [iA, iB])
    (hbig : biggest_island reg.islands [iA, iB] = s)
    (hoth : [iA, iB].filter (fun e => decide (e ≠ s)) = [t])
    (hts : t ≠ s) :
    (get_island (island_on_construct_relation reg rel_entity rel_entities).islands s).entities
        = (get_island reg.islands s).entities ++ (get_island reg.islands t).entities
    ∧ (island_on_construct_relation reg rel_entity rel_entities).islands t = none
    ∧ (∀ ent ∈ (get_island reg.islands t).entities,
        (island_on_construct_relation reg rel_entity rel_entities).node ent = some s)
    ∧ (get_island (island_on_construct_relation reg rel_entity rel_entities).islands s).sleep_step
        = UINT64_MAX
    ∧ (island_on_construct_relation reg rel_entity rel_entities).sleeping s = false
    ∧ (∀ ent ∈ (get_island (island_on_construct_relation reg rel_entity rel_entities).islands s).entities,
        (island_on_construct_relation reg rel_entity rel_entities).sleeping ent = false) := by
  have hst : s ≠ t := Ne.symm hts
  set reg2 : island_registry :=
    { reg with
      relations := push_relation
        (push_relation reg.relations (rel_entities.getD 0 0) rel_entity)
        (rel_entities.getD 1 0) rel_entity
      islands := erase_island
        (set_island reg.islands s
          { get_island reg.islands s with
            entities := (get_island reg.islands s).entities
              ++ (get_island reg.islands t).entities }) t
      node := fun e => if ((get_island reg.islands t).entities).contains e
        then some s else reg.node e } with hreg2
  have hout : island_on_construct_relation reg rel_entity rel_entities
      = wakeup_island reg2 s := by
    unfold island_on_construct_relation
    simp only []
    rw [hcollect]
    simp only [List.length_cons, List.length_nil]
    rw [if_neg (by omega)]
    rw [hbig, hoth]
    simp only [List.flatMap_cons, List.flatMap_nil, List.append_nil, List.foldl]
  have hisle : get_island reg2.islands s
      = { get_island reg.islands s with
          entities := (get_island reg.islands s).entities
            ++ (get_island reg.islands t).entities } := by
    rw [hreg2]
    show get_island (erase_island _ t) s = _
    rw [get_island, erase_island_apply_other _ _ _ hst, ← get_island,
      get_set_island_same]
  have hislands : (wakeup_island reg2 s).islands
      = set_island reg2.islands s
          { get_island reg2.islands s with sleep_step := UINT64_MAX } := rfl
  have hnode : (wakeup_island reg2 s).node = reg2.node := rfl
  have hget_s : get_island (wakeup_island reg2 s).islands s
      = { get_island reg2.islands s with sleep_step := UINT64_MAX } := by
    rw [hislands, get_set_island_same]
  refine ⟨?_, ?_, ?_, ?_, ?_, ?_⟩
  · rw [hout, hget_s, hisle]
  · rw [hout, hislands]
    show set_island reg2.islands s _ t = none
    unfold set_island
    rw [if_neg hts]
    rw [hreg2]
    show erase_island _ t t = none
    unfold erase_island
    simp
  · intro ent hent
    rw [hout, hnode, hreg2]
    show (if ((get_island reg.islands t).entities).contains ent then some s
      else reg.node ent) = some s
    rw [if_pos (List.elem_eq_true_of_mem hent)]
  · rw [hout, hget_s]
  · rw [hout]
    show clear_sleeping _ _ s = false
    unfold clear_sleeping
    rw [if_pos]
    simp [List.contains_cons]
  · intro ent hent
    rw [hout] at hent ⊢
    rw [hget_s] at hent
    simp only [] at hent
    rw [hisle] at hent
    simp only [] at hent
    show clear_sleeping _ _ ent = false
    unfold clear_sleeping
    rw [if_pos]
    simp only [List.contains_cons]
    apply Bool.or_eq_true_iff.mpr
    right
    apply List.elem_eq_true_of_mem
    refine List.mem_append.mpr (Or.inl (List.mem_append.mpr (Or.inl ?_)))
    rw [get_island_erase_set _ _ _ _ hst]
    exact hent

/-- C8: when a newly inserted relation connects bodies residing in the two
distinct islands `iA` and `iB`, the islands are merged: with `s` the
larger-or-first island and `t` the other, `t`'s entity count never exceeds
`s`'s, all of `t`'s member entities are appended to `s`'s member list and
their island back-links are set to `s`, the island entity `t` is
destroyed, and the surviving island `s` is woken (sleep step reset to
`UINT64_MAX`, sleeping tags removed from it and from every member). -/
theorem island_merge_on_construct_relation (reg : island_registry)
    (rel_entity : ℕ) (rel_entities : List ℕ) (iA iB : ℕ)
    (hcollect : collect_island_ents reg.node rel_entities = [iA, iB])
    (hne : iA ≠ iB) :
    ∀ s t : ℕ,
      (s, t) = (if (get_island reg.islands iB).entities.length
                    > (get_island reg.islands iA).entities.length
                then (iB, iA) else (iA, iB)) →
      (get_island reg.islands t).entities.length
          ≤ (get_island reg.islands s).entities.length
      ∧ (get_island (island_on_construct_relation reg rel_entity rel_entities).islands s).entities
          = (get_island reg.islands s).entities ++ (get_island reg.islands t).entities
      ∧ (island_on_construct_relation reg rel_entity rel_entities).islands t = none
      ∧ (∀ ent ∈ (get_island reg.islands t).entities,
          (island_on_construct_relation reg rel_entity rel_entities).node ent = some s)
      ∧ (get_island (island_on_construct_relation reg rel_entity rel_entities).islands s).sleep_step
          = UINT64_MAX
      ∧ (island_on_construct_relation reg rel_entity rel_entities).sleeping s = false
      ∧ (∀ ent ∈ (get_island (island_on_construct_relation reg rel_entity rel_entities).islands s).entities,
          (island_on_construct_relation reg rel_entity rel_entities).sleeping ent = false) := by
  intro s t hst
  by_cases hsz : (get_island reg.islands iB).entities.length
      > (get_island reg.islands iA).entities.length
  · rw [if_pos hsz] at hst
    simp only [Prod.mk.injEq] at hst
    obtain ⟨hs, ht⟩ := hst
    rw [hs, ht]
    have hbig : biggest_island reg.islands [iA, iB] = iB := by
      rw [biggest_island_pair]
      exact if_pos hsz
    have hoth : [iA, iB].filter (fun e => decide (e ≠ iB)) = [iA] := by
      simp [hne]
    have haux := island_merge_aux reg rel_entity rel_entities iA iB iB iA
      hcollect hbig hoth hne
    exact ⟨le_of_lt hsz, haux.1, haux.2.1, haux.2.2.1, haux.2.2.2.1,
      haux.2.2.2.2.1, haux.2.2.2.2.2⟩
  · rw [if_neg hsz] at hst
    simp only [Prod.mk.injEq] at hst
    obtain ⟨hs, ht⟩ := hst
    rw [hs, ht]
    have hbig : biggest_island reg.islands [iA, iB] = iA := by
      rw [biggest_island_pair]
      exact if_neg hsz
    have hoth : [iA, iB].filter (fun e => decide (e ≠ iA)) = [iB] := by
      simp [Ne.symm hne]
    have haux := island_merge_aux reg rel_entity rel_entities iA iB iA iB
      hcollect hbig hoth (Ne.symm hne)
    exact ⟨not_lt.mp hsz, haux.1, haux.2.1, haux.2.2.1, haux.2.2.2.1,
      haux.2.2.2.2.1, haux.2.2.2.2.2⟩

/-- Witness for C8 on the concrete two-island registry: the larger island
11 absorbs the single body of island 10, and island 10 is destroyed. -/
theorem island_merge_on_construct_relation_witness :
    (get_island (island_on_construct_relation merge_example_registry 99 [1, 2]).islands 11).entities
        = [2, 3] ++ [1]
    ∧ (island_on_construct_relation merge_example_registry 99 [1, 2]).islands 10 = none := by
  have h := island_merge_on_construct_relation merge_example_registry 99 [1, 2] 10 11
    (by decide) (by decide) 11 10 (by decide)
  constructor
  · rw [h.2.1]
    rfl
  · exact h.2.2.1

/-- C10: the sphere-versus-plane collision function ignores its separation
threshold parameter; it returns zero candidate points when the signed
distance `l` of the sphere center to the plane along the plane normal
exceeds the sphere radius, and otherwise exactly one candidate point whose
`distance` field is `l - radius`; hence every candidate it produces has
non-positive separation. -/
theorem collide_sphere_plane_threshold_and_distance
    (sphere : sphere_shape) (posA : vector3) (ornA : quaternion)
    (plane : plane_shape) (posB : vector3) (ornB : quaternion)
    (t1 t2 : ℚ) :
    collide_sphere_plane sphere posA ornA plane posB ornB t1
      = collide_sphere_plane sphere posA ornA plane posB ornB t2
    ∧ (collide_sphere_plane sphere posA ornA plane posB ornB t1).length
        = (if sphere.radius <
             dot (rotate ornB plane.normal)
               (posA - (posB + rotate ornB (plane.constant • plane.normal)))
           then 0 else 1)
    ∧ (∀ p ∈ collide_sphere_plane sphere posA ornA plane posB ornB t1,
        p.distance =
          dot (rotate ornB plane.normal)
            (posA - (posB + rotate ornB (plane.constant • plane.normal)))
          - sphere.radius
        ∧ p.distance ≤ 0) := by
  refine ⟨rfl, ?_, ?_⟩
  · by_cases h : sphere.radius <
        dot (rotate ornB plane.normal)
          (posA - (posB + rotate ornB (plane.constant • plane.normal)))
    · simp [collide_sphere_plane, h]
    · simp [collide_sphere_plane, h]
  · intro p hp
    by_cases h : sphere.radius <
        dot (rotate ornB plane.normal)
          (posA - (posB + rotate ornB (plane.constant • plane.normal)))
    · simp [collide_sphere_plane, h] at hp
    · simp [collide_sphere_plane, h] at hp
      subst hp
      exact ⟨rfl, sub_nonpos.mpr (not_lt.mp h)⟩

/-- Witness for C10 at a concrete configuration: a unit-radius-half sphere
touching the plane y = 0. -/
theorem collide_sphere_plane_threshold_and_distance_witness :
    collide_sphere_plane ⟨1/2⟩ ⟨0, 10, 0⟩ ⟨0, 0, 0, 1⟩
        ⟨⟨0, 1, 0⟩, 0⟩ ⟨0, 0, 0⟩ ⟨0, 0, 0, 1⟩ (1/25)
      = collide_sphere_plane ⟨1/2⟩ ⟨0, 10, 0⟩ ⟨0, 0, 0, 1⟩
        ⟨⟨0, 1, 0⟩, 0⟩ ⟨0, 0, 0⟩ ⟨0, 0, 0, 1⟩ (7/5) :=
  (collide_sphere_plane_threshold_and_distance ⟨1/2⟩ ⟨0, 10, 0⟩ ⟨0, 0, 0, 1⟩
    ⟨⟨0, 1, 0⟩, 0⟩ ⟨0, 0, 0⟩ ⟨0, 0, 0, 1⟩ (1/25) (7/5)).1

/-- The y component of a vector sum. -/
theorem vector3_add_y (a b : vector3) : (a + b).y = a.y + b.y := rfl

/-- The y component of a scalar multiple. -/
theorem vector3_smul_y (c : ℚ) (a : vector3) : (c • a).y = c * a.y := rfl

/-- Closed form of the velocity after `n` free-fall steps. -/
theorem free_fall_vel_y (g : vector3) (dt : ℚ) (s : body_state) (n : ℕ) :
    (free_fall g dt s n).vel.y = s.vel.y + n * (dt * g.y) := by
  induction n with
  | zero => simp [free_fall]
  | succ n ih =>
      simp only [free_fall, free_fall_step, vector3_add_y, vector3_smul_y, ih]
      push_cast
      ring

/-- Closed form of the position after `n` free-fall steps. -/
theorem free_fall_pos_y (g : vector3) (dt : ℚ) (s : body_state) (n : ℕ) :
    (free_fall g dt s n).pos.y
      = s.pos.y + n * (dt * s.vel.y) + (n * (n + 1) : ℚ) / 2 * (dt * dt * g.y) := by
  induction n with
  | zero => simp [free_fall]
  | succ n ih =>
      have hv := free_fall_vel_y g dt s n
      simp only [free_fall, free_fall_step, vector3_add_y, vector3_smul_y, ih, hv]
      push_cast
      ring

/-- C9: a unit-mass body starting at rest at `(0, 10, 0)` under gravity
`(0, -9.81, 0)`, stepped 60 times with `dt = 1/60` (each step first adds
`g * dt` to the velocity and then `v * dt` to the position), ends with
velocity y exactly `-9.81` and position y exactly `20053/4000 = 5.01325`,
which is within `0.1` of the value `5.095` predicted by the continuous-time
formula `10 - 9.81/2` (the half-step discretization offset of symplectic
Euler is `9.81/120 = 0.08175`). -/
theorem free_fall_scenario :
    (free_fall ⟨0, -981/100, 0⟩ (1/60) ⟨⟨0, 10, 0⟩, vector3_zero⟩ 60).vel.y
        = -981/100
    ∧ (free_fall ⟨0, -981/100, 0⟩ (1/60) ⟨⟨0, 10, 0⟩, vector3_zero⟩ 60).pos.y
        = 20053/4000
    ∧ 5095/1000 - 1/10
        < (free_fall ⟨0, -981/100, 0⟩ (1/60) ⟨⟨0, 10, 0⟩, vector3_zero⟩ 60).pos.y
    ∧ (free_fall ⟨0, -981/100, 0⟩ (1/60) ⟨⟨0, 10, 0⟩, vector3_zero⟩ 60).pos.y
        < 5095/1000 + 1/10 := by
  have hv : (free_fall ⟨0, -981/100, 0⟩ (1/60) ⟨⟨0, 10, 0⟩, vector3_zero⟩ 60).vel.y
      = -981/100 := by
    rw [free_fall_vel_y]
    norm_num [vector3_zero]
  have hp : (free_fall ⟨0, -981/100, 0⟩ (1/60) ⟨⟨0, 10, 0⟩, vector3_zero⟩ 60).pos.y
      = 20053/4000 := by
    rw [free_fall_pos_y]
    norm_num [vector3_zero]
  exact ⟨hv, hp, by rw [hp]; norm_num, by rw [hp]; norm_num⟩

/-- C6: the discontinuity accumulated for spin by
`accumulate_discontinuities` is exactly the difference of the total angles
denoted by the previous and current `spin_angle` values under the
turn-count-plus-residual representation `angle = count * 2π + s`; the pair
`(count, s)` therefore carries the integrated angle losslessly across
wraps at 2π. -/
theorem accumulate_discontinuities_spin_turns
    (pi2 : ℚ) (p_spin spin : spin_angle) (offset : ℚ) :
    accumulate_spin_discontinuity pi2 p_spin spin offset
      = offset + (spin_angle_total pi2 p_spin - spin_angle_total pi2 spin) := by
  unfold accumulate_spin_discontinuity spin_angle_total
  ring

/-- Expansion of a sum over `Fin 12` into its twelve summands. -/
theorem fin12_sum (f : Fin 12 → ℚ) :
    (∑ i, f i) = f 0 + f 1 + f 2 + f 3 + f 4 + f 5
      + f 6 + f 7 + f 8 + f 9 + f 10 + f 11 := by
  rw [Fin.sum_univ_castSucc, Fin.sum_univ_castSucc, Fin.sum_univ_castSucc,
    Fin.sum_univ_castSucc, Fin.sum_univ_eight]
  rfl

/-- C4: the effective mass computed by `prepare_row` equals
`1 / (Jᵀ M⁻¹ J)` for the block-diagonal inverse mass matrix
`M⁻¹ = diag(1/mA·I, I_A⁻¹, 1/mB·I, I_B⁻¹)` and the Jacobian stacked as a
12-vector, and its right-hand side equals `-(error * erp + (1 + e) * Jv)`
with `Jv` the stacked body velocities projected by the Jacobian. -/
theorem prepare_row_eff_mass_rhs_spec (row : constraint_row)
    (options : constraint_row_options) (vA wA vB wB : vector3) :
    (prepare_row row options vA wA vB wB).eff_mass
      = 1 / Matrix.dotProduct (stack12 row.J)
          ((inv_mass_matrix row.inv_mA row.inv_IA row.inv_mB row.inv_IB).mulVec
            (stack12 row.J))
    ∧ (prepare_row row options vA wA vB wB).rhs
      = -(options.error * options.erp
          + (1 + options.restitution)
            * Matrix.dotProduct (stack12 row.J) (stack12 (stack4 vA wA vB wB))) := by
  have hquad : Matrix.dotProduct (stack12 row.J)
      ((inv_mass_matrix row.inv_mA row.inv_IA row.inv_mB row.inv_IB).mulVec
        (stack12 row.J))
      = dot (row.J 0) (row.J 0) * row.inv_mA +
        dot (mvmul row.inv_IA (row.J 1)) (row.J 1) +
        dot (row.J 2) (row.J 2) * row.inv_mB +
        dot (mvmul row.inv_IB (row.J 3)) (row.J 3) := by
    simp only [Matrix.dotProduct, Matrix.mulVec, fin12_sum, inv_mass_matrix,
      Matrix.of_apply, stack12, dot, mvmul]
    ring
  have hrel : Matrix.dotProduct (stack12 row.J) (stack12 (stack4 vA wA vB wB))
      = dot (row.J 0) vA + dot (row.J 1) wA + dot (row.J 2) vB + dot (row.J 3) wB := by
    simp only [Matrix.dotProduct, fin12_sum, stack12, stack4, dot]
    ring
  rw [hquad, hrel]
  exact ⟨rfl, by unfold prepare_row; ring⟩

/-- C1: every pair for which the broadphase creates a contact manifold
passed `should_collide`, hence consists of two distinct entities whose
collision filters satisfy `(groupA AND maskB) ≠ 0` and
`(groupB AND maskA) ≠ 0`; contrapositively, no manifold is ever created
(and hence none ever exists) for a pair whose filters reject each other. -/
theorem broadphase_creates_only_filter_passing (env : broadphase_env)
    (candidates : List (ℕ × ℕ)) (a b : ℕ)
    (h : (a, b) ∈ broadphase_created_pairs env candidates) :
    a ≠ b
    ∧ (env.filter a).group &&& (env.filter b).mask ≠ 0
    ∧ (env.filter b).group &&& (env.filter a).mask ≠ 0 := by
  have hg : manifold_creation_guard env a b = true :=
    (List.mem_filter.mp h).2
  have hsc : should_collide env a b = true := by
    simp only [manifold_creation_guard, Bool.and_eq_true] at hg
    exact hg.1.1
  unfold should_collide at hsc
  by_cases hab : a = b
  · simp [hab] at hsc
  · rw [if_neg hab] at hsc
    refine ⟨hab, ?_⟩
    by_cases hd0 : env.dynamic a = true
    · rw [if_pos hd0] at hsc
      by_cases hc :
          (env.island_entities b).contains ((env.island_entities a).headD 0) = true
      · rw [if_pos hc] at hsc
        exact absurd hsc (by simp)
      · rw [if_neg hc] at hsc
        simp only [Bool.and_eq_true, decide_eq_true_eq] at hsc
        exact ⟨Nat.pos_iff_ne_zero.mp hsc.1, Nat.pos_iff_ne_zero.mp hsc.2⟩
    · rw [if_neg hd0] at hsc
      by_cases hd1 : env.dynamic b = true
      · rw [if_pos hd1] at hsc
        by_cases hc :
            (env.island_entities a).contains ((env.island_entities b).headD 0) = true
        · rw [if_pos hc] at hsc
          exact absurd hsc (by simp)
        · rw [if_neg hc] at hsc
          simp only [Bool.and_eq_true, decide_eq_true_eq] at hsc
          exact ⟨Nat.pos_iff_ne_zero.mp hsc.1, Nat.pos_iff_ne_zero.mp hsc.2⟩
      · rw [if_neg hd1] at hsc
        exact absurd hsc (by simp)

/-- Witness for C1 at a concrete registry: a dynamic body 0 and a static
body 1 in no common island, both with filter group = mask = 1. -/
theorem broadphase_creates_only_filter_passing_witness :
    ((0, 1) ∈ broadphase_created_pairs
        { island_entities := fun _ => []
        , dynamic := fun e => e == 0
        , filter := fun _ => ⟨1, 1⟩
        , manifold_exists := fun _ _ => false
        , aabb_intersect := fun _ _ => true }
        [(0, 1)])
    ∧ ((0 : ℕ) ≠ 1 ∧ (1 : ℕ) &&& 1 ≠ 0 ∧ (1 : ℕ) &&& 1 ≠ 0) := by
  refine ⟨by decide, ?_⟩
  have h := broadphase_creates_only_filter_passing
    { island_entities := fun _ => []
    , dynamic := fun e => e == 0
    , filter := fun _ => ⟨1, 1⟩
    , manifold_exists := fun _ _ => false
    , aabb_intersect := fun _ _ => true }
    [(0, 1)] 0 1 (by decide)
  exact h

/-- The downward swap-removal loop keeps exactly the elements failing the
condition: the result is a permutation of the filtered prefix of length `i`
followed by the untouched suffix. -/
theorem prune_aux_perm {α : Type} [Inhabited α] (cond : α → Bool) :
    ∀ (i : ℕ) (l : List α), i ≤ l.length →
      (prune_aux cond l i).Perm ((l.take i).filter (fun p => !cond p) ++ l.drop i) := by
  intro i
  induction i with
  | zero => intro l _; simp [prune_aux]
  | succ i ih =>
      intro l h
      have hi : i < l.length := Nat.lt_of_succ_le h
      have hgetD : l.getD i default = l[i] := List.getD_eq_getElem l default hi
      have htake : l.take (i+1) = l.take i ++ [l[i]] := by
        rw [List.take_succ]
        simp [List.getElem?_eq_getElem hi]
      have hdrop : l.drop i = l[i] :: l.drop (i+1) := List.drop_eq_getElem_cons hi
      unfold prune_aux
      by_cases hc : cond (l.getD i default) = true
      · rw [if_pos hc]
        rw [hgetD] at hc
        have hn1 : l.length - 1 < l.length := by omega
        have hlast : l.getD (l.length - 1) default = l[l.length - 1] :=
          List.getD_eq_getElem l default hn1
        have hset : l.set i (l[l.length - 1])
            = l.take i ++ l[l.length - 1] :: l.drop (i+1) :=
          List.set_eq_take_cons_drop _ hi
        have hfilter : (l.take (i+1)).filter (fun p => !cond p)
            = (l.take i).filter (fun p => !cond p) := by
          rw [htake, List.filter_append]
          simp [hc]
        by_cases hii : i = l.length - 1
        · have hdropn : l.drop (i+1) = [] := by
            apply List.drop_eq_nil_of_le
            omega
          have hswap : swap_remove_last l i = l.take i := by
            unfold swap_remove_last
            rw [hlast, hset, hdropn, List.dropLast_concat]
          have hlen : i ≤ (l.take i).length := by
            simp [List.length_take]
            omega
          have hperm := ih (l.take i) hlen
          have htk2 : (l.take i).take i = l.take i := by
            apply List.take_of_length_le
            simp [List.length_take]
          have hdr2 : (l.take i).drop i = [] := by
            apply List.drop_eq_nil_of_le
            simp [List.length_take]
          rw [htk2, hdr2, List.append_nil] at hperm
          rw [hswap, hfilter, hdropn, List.append_nil]
          exact hperm
        · have hne : l.drop (i+1) ≠ [] := by
            intro hnil
            have hld := List.length_drop (i+1) l
            rw [hnil] at hld
            simp at hld
            omega
          have hswap : swap_remove_last l i
              = l.take i ++ l[l.length - 1] :: (l.drop (i+1)).dropLast := by
            unfold swap_remove_last
            rw [hlast, hset, List.dropLast_append_cons,
              List.dropLast_cons_of_ne_nil hne]
          have hlt : (l.take i).length = i := by
            simp [List.length_take]
            omega
          have hlen' : i ≤ (swap_remove_last l i).length := by
            rw [hswap, List.length_append, hlt]
            omega
          have hperm := ih (swap_remove_last l i) hlen'
          have htk : (swap_remove_last l i).take i = l.take i := by
            rw [hswap]
            exact List.take_left' hlt
          have hdr : (swap_remove_last l i).drop i
              = l[l.length - 1] :: (l.drop (i+1)).dropLast := by
            rw [hswap]
            exact List.drop_left' hlt
          rw [htk, hdr] at hperm
          refine hperm.trans ?_
          rw [hfilter]
          refine List.Perm.append_left _ ?_
          have hgl : (l.drop (i+1)).getLast hne = l[l.length - 1] := by
            rw [List.getLast_eq_getElem, List.getElem_drop]
            congr 1
            simp [List.length_drop]
            omega
          have hconcat : (l.drop (i+1)).dropLast ++ [l[l.length - 1]]
              = l.drop (i+1) := by
            rw [← hgl]
            exact List.dropLast_concat_getLast hne
          have hp : (l[l.length - 1] :: (l.drop (i+1)).dropLast).Perm
              ((l.drop (i+1)).dropLast ++ [l[l.length - 1]]) := by
            have hq := @List.perm_append_comm _ [l[l.length - 1]]
              ((l.drop (i+1)).dropLast)
            simpa using hq
          rw [hconcat] at hp
          exact hp
      · rw [if_neg hc]
        rw [hgetD] at hc
        have heq : (l.take i).filter (fun p => !cond p) ++ l.drop i
            = (l.take (i+1)).filter (fun p => !cond p) ++ l.drop (i+1) := by
          rw [htake, List.filter_append, hdrop]
          simp [hc]
        have hperm := ih l (le_of_lt hi)
        rw [heq] at hperm
        exact hperm

/-- C2: the points surviving a `prune` pass are exactly (up to the order
perturbation of swap-removal) those satisfying neither removal condition,
and a point's removal condition holds iff its separation along the contact
normal exceeds the contact-breaking threshold or the squared length of the
tangential part of the pivot difference (its drift projected onto the
contact plane) exceeds the squared threshold. -/
theorem prune_removes_separating_points (posA : vector3) (ornA : quaternion)
    (posB : vector3) (ornB : quaternion) (threshold : ℚ)
    (points : List contact_point) :
    (prune posA ornA posB ornB threshold points).Perm
      (points.filter (fun cp => !prune_cond posA ornA posB ornB threshold cp))
    ∧ ∀ cp : contact_point,
        prune_cond posA ornA posB ornB threshold cp = true
        ↔ (threshold <
            dot ((posA + rotate ornA cp.pivotA) - (posB + rotate ornB cp.pivotB))
              (rotate ornB cp.normalB)
          ∨ threshold * threshold <
            length_sqr (((posA + rotate ornA cp.pivotA) - (posB + rotate ornB cp.pivotB))
              - dot ((posA + rotate ornA cp.pivotA) - (posB + rotate ornB cp.pivotB))
                  (rotate ornB cp.normalB) • rotate ornB cp.normalB)) := by
  constructor
  · have hperm := prune_aux_perm
      (prune_cond posA ornA posB ornB threshold) points.length points le_rfl
    rw [List.take_length, List.drop_length, List.append_nil] at hperm
    exact hperm
  · intro cp
    simp [prune_cond]

/-- C3 counterexample: with materials of ids 1 and 2 and restitutions 1/2,
and a mix table carrying an override with restitution 9/10 for the pair
(1, 2), the newly created contact point's restitution is the plain product
1/4, not the table entry's 9/10 that the claim prescribes. -/
theorem contact_restitution_ignores_mix_table_cex :
    (create_contact_constraint_mix
        [((1, 2), ⟨9/10, 1/2, 0, 0, 0, 0, 0⟩)]
        ⟨1/2, 1/2, 0, 0, 0, 0, 1⟩ ⟨1/2, 1/2, 0, 0, 0, 0, 2⟩
        default).restitution = 1/4
    ∧ material_table_try_get [((1, 2), ⟨9/10, 1/2, 0, 0, 0, 0, 0⟩)] (1, 2)
        = some ⟨9/10, 1/2, 0, 0, 0, 0, 0⟩
    ∧ claimed_new_point_restitution
        [((1, 2), ⟨9/10, 1/2, 0, 0, 0, 0, 0⟩)]
        ⟨1/2, 1/2, 0, 0, 0, 0, 1⟩ ⟨1/2, 1/2, 0, 0, 0, 0, 2⟩ = 9/10
    ∧ (create_contact_constraint_mix
        [((1, 2), ⟨9/10, 1/2, 0, 0, 0, 0, 0⟩)]
        ⟨1/2, 1/2, 0, 0, 0, 0, 1⟩ ⟨1/2, 1/2, 0, 0, 0, 0, 2⟩
        default).restitution
      ≠ claimed_new_point_restitution
        [((1, 2), ⟨9/10, 1/2, 0, 0, 0, 0, 0⟩)]
        ⟨1/2, 1/2, 0, 0, 0, 0, 1⟩ ⟨1/2, 1/2, 0, 0, 0, 0, 2⟩ := by
  refine ⟨by norm_num [create_contact_constraint_mix], ?_, ?_, ?_⟩
  · norm_num [material_table_try_get, List.find?]
  · norm_num [claimed_new_point_restitution, material_table_try_get, List.find?]
  · norm_num [create_contact_constraint_mix, claimed_new_point_restitution,
      material_table_try_get, List.find?]

/-- C3 amended: a new contact point's restitution (and friction) always
equals the product of the two materials' coefficients, for every state of
the material-mix table; the override-wins lookup on the unordered pair of
material ids described by the claim happens instead in
`make_contact_manifold`, whose computed restitution (table entry if
present, otherwise the mixed product) only decides the manifold's
with-restitution tag. -/
theorem contact_restitution_product_amended (table : material_mix_table)
    (materialA materialB : material) (cp : contact_point) :
    (create_contact_constraint_mix table materialA materialB cp).restitution
        = materialA.restitution * materialB.restitution
    ∧ (create_contact_constraint_mix table materialA materialB cp).friction
        = materialA.friction * materialB.friction
    ∧ make_contact_manifold_restitution table materialA materialB
        = claimed_new_point_restitution table materialA materialB := by
  refine ⟨rfl, rfl, ?_⟩
  unfold make_contact_manifold_restitution claimed_new_point_restitution
    material_mix_restitution
  rfl

/-- C5: after `solve_friction_row_pair` updates the two friction rows'
accumulated impulses, their combined squared magnitude never exceeds
`(μ · λ_n)²` where `μ` is the pair's friction coefficient and `λ_n` the
normal row's accumulated impulse (given `sqrt` facts for the unclamped
length and a nonnegative epsilon); when the unclamped impulse exceeds the
bound it is rescaled exactly to the bound (for length above epsilon) or
zeroed (otherwise), and when it does not exceed the bound it is kept. -/
theorem solve_friction_row_pair_circle_clamp
    (frp : contact_friction_row_pair) (normal_row : constraint_row)
    (st : delta_state) (eps impulse_len : ℚ)
    (h_eps : 0 ≤ eps)
    (h_len : impulse_len ^ 2
      = friction_unclamped_impulse frp normal_row st 0 ^ 2
        + friction_unclamped_impulse frp normal_row st 1 ^ 2) :
    (((solve_friction_row_pair frp normal_row st eps impulse_len).1.row 0).impulse ^ 2
      + ((solve_friction_row_pair frp normal_row st eps impulse_len).1.row 1).impulse ^ 2
      ≤ (frp.friction_coefficient * normal_row.impulse) ^ 2)
    ∧ (friction_unclamped_impulse frp normal_row st 0 ^ 2
          + friction_unclamped_impulse frp normal_row st 1 ^ 2
          > (frp.friction_coefficient * normal_row.impulse) ^ 2 →
        (impulse_len > eps →
          ((solve_friction_row_pair frp normal_row st eps impulse_len).1.row 0).impulse
            = friction_unclamped_impulse frp normal_row st 0 / impulse_len
              * (frp.friction_coefficient * normal_row.impulse)
          ∧ ((solve_friction_row_pair frp normal_row st eps impulse_len).1.row 1).impulse
            = friction_unclamped_impulse frp normal_row st 1 / impulse_len
              * (frp.friction_coefficient * normal_row.impulse))
        ∧ (impulse_len ≤ eps →
          ((solve_friction_row_pair frp normal_row st eps impulse_len).1.row 0).impulse = 0
          ∧ ((solve_friction_row_pair frp normal_row st eps impulse_len).1.row 1).impulse
              = 0))
    ∧ (friction_unclamped_impulse frp normal_row st 0 ^ 2
          + friction_unclamped_impulse frp normal_row st 1 ^ 2
          ≤ (frp.friction_coefficient * normal_row.impulse) ^ 2 →
        ((solve_friction_row_pair frp normal_row st eps impulse_len).1.row 0).impulse
            = friction_unclamped_impulse frp normal_row st 0
        ∧ ((solve_friction_row_pair frp normal_row st eps impulse_len).1.row 1).impulse
            = friction_unclamped_impulse frp normal_row st 1) := by
  set u0 := friction_unclamped_impulse frp normal_row st 0 with hu0
  set u1 := friction_unclamped_impulse frp normal_row st 1 with hu1
  set maxlen := frp.friction_coefficient * normal_row.impulse with hmax
  have himp0 : ((solve_friction_row_pair frp normal_row st eps impulse_len).1.row 0).impulse
      = (if u0 ^ 2 + u1 ^ 2 > maxlen ^ 2 then
          if impulse_len > eps then (u0 / impulse_len * maxlen, u1 / impulse_len * maxlen)
          else ((0 : ℚ), (0 : ℚ))
        else (u0, u1)).1 := rfl
  have himp1 : ((solve_friction_row_pair frp normal_row st eps impulse_len).1.row 1).impulse
      = (if u0 ^ 2 + u1 ^ 2 > maxlen ^ 2 then
          if impulse_len > eps then (u0 / impulse_len * maxlen, u1 / impulse_len * maxlen)
          else ((0 : ℚ), (0 : ℚ))
        else (u0, u1)).2 := rfl
  by_cases hc : u0 ^ 2 + u1 ^ 2 > maxlen ^ 2
  · by_cases hl : impulse_len > eps
    · have hlen_pos : impulse_len ≠ 0 :=
        ne_of_gt (lt_of_le_of_lt h_eps hl)
      have hsq : (u0 / impulse_len * maxlen) ^ 2 + (u1 / impulse_len * maxlen) ^ 2
          = maxlen ^ 2 := by
        field_simp
        rw [h_len]
        ring
      refine ⟨?_, fun _ => ⟨fun _ => ?_, fun hle => absurd hl (not_lt.mpr hle)⟩,
        fun hle => absurd hc (not_lt.mpr hle)⟩
      · rw [himp0, himp1, if_pos hc, if_pos hl]
        exact le_of_eq hsq
      · rw [himp0, himp1, if_pos hc, if_pos hl]
        exact ⟨rfl, rfl⟩
    · refine ⟨?_, fun _ => ⟨fun hgt => absurd hgt hl, fun _ => ?_⟩,
        fun hle => absurd hc (not_lt.mpr hle)⟩
      · rw [himp0, himp1, if_pos hc, if_neg hl]
        simpa using sq_nonneg maxlen
      · rw [himp0, himp1, if_pos hc, if_neg hl]
        exact ⟨rfl, rfl⟩
  · refine ⟨?_, fun hgt => absurd hgt hc, fun _ => ?_⟩
    · rw [himp0, himp1, if_neg hc]
      exact not_lt.mp hc
    · rw [himp0, himp1, if_neg hc]
      exact ⟨rfl, rfl⟩

/-- Witness for C5 at concrete inputs: unclamped impulse (3, 4) of length
5 against a friction bound μ·λ_n = 1; the theorem then bounds the clamped
impulse by 1. -/
theorem solve_friction_row_pair_circle_clamp_witness :
    (0 : ℚ) ≤ 1/1000000
    ∧ ((5 : ℚ) ^ 2
      = friction_unclamped_impulse
          ⟨fun i => ⟨fun _ => vector3_zero, 0, 1, if i = 0 then 3 else 4⟩, 1⟩
          ⟨fun _ => vector3_zero, 0, ⟨vector3_zero, vector3_zero, vector3_zero⟩,
            0, ⟨vector3_zero, vector3_zero, vector3_zero⟩, 0, 0, 1, 0, 0,
            fun _ => vector3_zero⟩
          ⟨vector3_zero, vector3_zero, none, vector3_zero, vector3_zero, none⟩ 0 ^ 2
        + friction_unclamped_impulse
          ⟨fun i => ⟨fun _ => vector3_zero, 0, 1, if i = 0 then 3 else 4⟩, 1⟩
          ⟨fun _ => vector3_zero, 0, ⟨vector3_zero, vector3_zero, vector3_zero⟩,
            0, ⟨vector3_zero, vector3_zero, vector3_zero⟩, 0, 0, 1, 0, 0,
            fun _ => vector3_zero⟩
          ⟨vector3_zero, vector3_zero, none, vector3_zero, vector3_zero, none⟩ 1 ^ 2)
    ∧ (((solve_friction_row_pair
          ⟨fun i => ⟨fun _ => vector3_zero, 0, 1, if i = 0 then 3 else 4⟩, 1⟩
          ⟨fun _ => vector3_zero, 0, ⟨vector3_zero, vector3_zero, vector3_zero⟩,
            0, ⟨vector3_zero, vector3_zero, vector3_zero⟩, 0, 0, 1, 0, 0,
            fun _ => vector3_zero⟩
          ⟨vector3_zero, vector3_zero, none, vector3_zero, vector3_zero, none⟩
          (1/1000000) 5).1.row 0).impulse ^ 2
        + ((solve_friction_row_pair
          ⟨fun i => ⟨fun _ => vector3_zero, 0, 1, if i = 0 then 3 else 4⟩, 1⟩
          ⟨fun _ => vector3_zero, 0, ⟨vector3_zero, vector3_zero, vector3_zero⟩,
            0, ⟨vector3_zero, vector3_zero, vector3_zero⟩, 0, 0, 1, 0, 0,
            fun _ => vector3_zero⟩
          ⟨vector3_zero, vector3_zero, none, vector3_zero, vector3_zero, none⟩
          (1/1000000) 5).1.row 1).impulse ^ 2
        ≤ ((1 : ℚ) * 1) ^ 2) := by
  have hlen : (5 : ℚ) ^ 2
      = friction_unclamped_impulse
          ⟨fun i => ⟨fun _ => vector3_zero, 0, 1, if i = 0 then 3 else 4⟩, 1⟩
          ⟨fun _ => vector3_zero, 0, ⟨vector3_zero, vector3_zero, vector3_zero⟩,
            0, ⟨vector3_zero, vector3_zero, vector3_zero⟩, 0, 0, 1, 0, 0,
            fun _ => vector3_zero⟩
          ⟨vector3_zero, vector3_zero, none, vector3_zero, vector3_zero, none⟩ 0 ^ 2
        + friction_unclamped_impulse
          ⟨fun i => ⟨fun _ => vector3_zero, 0, 1, if i = 0 then 3 else 4⟩, 1⟩
          ⟨fun _ => vector3_zero, 0, ⟨vector3_zero, vector3_zero, vector3_zero⟩,
            0, ⟨vector3_zero, vector3_zero, vector3_zero⟩, 0, 0, 1, 0, 0,
            fun _ => vector3_zero⟩
          ⟨vector3_zero, vector3_zero, none, vector3_zero, vector3_zero, none⟩ 1 ^ 2 := by
    norm_num [friction_unclamped_impulse, get_relative_speed, friction_spin_vec_A,
      friction_spin_vec_B, dot, vector3_zero]
  refine ⟨by norm_num, hlen, ?_⟩
  have h := (solve_friction_row_pair_circle_clamp
    ⟨fun i => ⟨fun _ => vector3_zero, 0, 1, if i = 0 then 3 else 4⟩, 1⟩
    ⟨fun _ => vector3_zero, 0, ⟨vector3_zero, vector3_zero, vector3_zero⟩,
      0, ⟨vector3_zero, vector3_zero, vector3_zero⟩, 0, 0, 1, 0, 0,
      fun _ => vector3_zero⟩
    ⟨vector3_zero, vector3_zero, none, vector3_zero, vector3_zero, none⟩
    (1/1000000) 5 (by norm_num) hlen).1
  exact h

/-! ### Serialization round-trip lemmas -/

theorem readWord_writeWord (w v : ℕ) (rest : List ℕ) :
    readWord w (writeWord w v ++ rest) = some (v % 256 ^ w, rest) := by
  induction w generalizing v with
  | zero => simp [writeWord, readWord, Nat.mod_one]
  | succ w ih =>
      simp only [writeWord, readWord, List.cons_append, List.append_eq]
      rw [ih]
      have hmm : v % 256 + 256 * (v / 256 % 256 ^ w) = v % 256 ^ (w + 1) := by
        rw [pow_succ, mul_comm (256 ^ w) 256, Nat.mod_mul]
      simp [hmm]

theorem readWord_writeWord_of_lt (w v : ℕ) (rest : List ℕ) (h : v < 256 ^ w) :
    readWord w (writeWord w v ++ rest) = some (v, rest) := by
  rw [readWord_writeWord, Nat.mod_eq_of_lt h]

theorem readBytes_append (e rest : List ℕ) :
    readBytes e.length (e ++ rest) = some (e, rest) := by
  induction e with
  | nil => simp [readBytes]
  | cons b t ih => simp [readBytes, ih]

theorem read_chunks_roundtrip (w : ℕ) (es : List (List ℕ)) (rest : List ℕ)
    (h : ∀ e ∈ es, e.length = w) :
    read_chunks w es.length (es.flatten ++ rest) = some (es, rest) := by
  induction es with
  | nil => simp [read_chunks]
  | cons e t ih =>
      have he : e.length = w := h e (List.mem_cons_self e t)
      have ht : ∀ x ∈ t, x.length = w := fun x hx => h x (List.mem_cons_of_mem e hx)
      have hb : readBytes w (e ++ (t.flatten ++ rest)) = some (e, t.flatten ++ rest) := by
        rw [← he]
        exact readBytes_append e _
      simp only [List.length_cons, read_chunks, List.flatten_cons, List.append_assoc]
      rw [hb]
      simp [ih ht]

theorem deserialize_serialize_vector (w : ℕ) (es : List (List ℕ)) (rest : List ℕ)
    (hw : ∀ e ∈ es, e.length = w) (hn : es.length < 256 ^ 8) :
    deserialize_vector w (serialize_vector es ++ rest) = some (es, rest) := by
  unfold serialize_vector deserialize_vector
  rw [List.append_assoc, readWord_writeWord_of_lt _ _ _ hn]
  simp [read_chunks_roundtrip w es rest hw]

theorem and_two_pow_eq (x j : ℕ) :
    x &&& 2 ^ j = if x.testBit j then 2 ^ j else 0 := by
  apply Nat.eq_of_testBit_eq
  intro k
  rw [Nat.testBit_and]
  by_cases hjk : j = k
  · subst hjk
    cases hx : x.testBit j <;> simp [hx, Nat.testBit_two_pow_self]
  · have h2 : (2 ^ j).testBit k = false := Nat.testBit_two_pow_of_ne hjk
    cases hx : x.testBit j <;> simp [hx, h2]

theorem pack_bits_aux_testBit (bs : List Bool) :
    ∀ (j set k : ℕ), Nat.testBit (pack_bits_aux bs j set) k
      = (Nat.testBit set k || (decide (j ≤ k) && bs.getD (k - j) false)) := by
  induction bs with
  | nil => intro j set k; simp [pack_bits_aux]
  | cons b t ih =>
      intro j set k
      simp only [pack_bits_aux]
      rw [ih, Nat.testBit_lor, Nat.testBit_shiftLeft]
      rcases Nat.lt_trichotomy k j with hk | hk | hk
      · have h1 : ¬ j ≤ k := by omega
        have h2 : ¬ j + 1 ≤ k := by omega
        have h3 : ¬ k ≥ j := by omega
        simp [h1, h2, h3]
      · subst hk
        have h2 : ¬ k + 1 ≤ k := by omega
        have h4 : k - k = 0 := by omega
        simp [h2, h4]
        cases b <;> simp
      · have h1 : j ≤ k := le_of_lt hk
        have h2 : j + 1 ≤ k := hk
        have h4 : k - j = (k - (j + 1)) + 1 := by omega
        have h6 : (if b then 1 else 0 : ℕ).testBit (k - (j + 1) + 1) = false := by
          cases b
          · simp
          · simp only [if_true]
            refine Bool.eq_false_iff.mpr fun hc => ?_
            rw [Nat.testBit_one_eq_true_iff_self_eq_zero] at hc
            omega
        simp [h1, h2, h4, h6]

theorem pack_bits_aux_lt (bs : List Bool) :
    ∀ (j set : ℕ), set < 2 ^ j → pack_bits_aux bs j set < 2 ^ (j + bs.length) := by
  induction bs with
  | nil =>
      intro j set h
      simpa [pack_bits_aux] using h
  | cons b t ih =>
      intro j set h
      simp only [pack_bits_aux, List.length_cons]
      have hpows : (2 : ℕ) ^ j < 2 ^ (j + 1) := by
        have := Nat.pow_lt_pow_succ (a := 2) (by norm_num) (n := j)
        simpa using this
      have hb : (if b then 1 else 0 : ℕ) <<< j < 2 ^ (j + 1) := by
        rw [Nat.shiftLeft_eq]
        cases b
        · simpa using Nat.pos_pow_of_pos (j + 1) (by norm_num)
        · simpa using hpows
      have hset : set < 2 ^ (j + 1) := lt_trans h hpows
      have hrec := ih (j + 1) (set ||| ((if b then 1 else 0) <<< j))
        (Nat.or_lt_two_pow hset hb)
      have he : j + 1 + t.length = j + (t.length + 1) := by omega
      rw [he] at hrec
      exact hrec

theorem pack_bits_lt (bs : List Bool) : pack_bits bs < 2 ^ bs.length := by
  have h := pack_bits_aux_lt bs 0 0 (by norm_num)
  simpa [pack_bits] using h

theorem pack_bits_testBit (bs : List Bool) (k : ℕ) :
    (pack_bits bs).testBit k = bs.getD k false := by
  unfold pack_bits
  rw [pack_bits_aux_testBit]
  simp

theorem unpack_pack (g : List Bool) :
    unpack_bits (pack_bits g) g.length = g := by
  apply List.ext_getElem
  · simp [unpack_bits]
  · intro i h1 h2
    simp only [unpack_bits, List.getElem_map, List.getElem_range]
    rw [Nat.shiftLeft_eq, one_mul, and_two_pow_eq, pack_bits_testBit,
      List.getD_eq_getElem g false h2]
    cases hx : g[i] <;> simp [hx]

theorem read_bool_chunks_roundtrip (fuel : ℕ) :
    ∀ (bs : List Bool) (rest : List ℕ), bs.length ≤ fuel →
    read_bool_chunks bs.length
        (((bool_chunks bs).flatMap fun g => writeWord 4 (pack_bits g)) ++ rest)
      = some (bs, rest) := by
  induction fuel with
  | zero =>
      intro bs rest h
      have hb : bs = [] := List.eq_nil_of_length_eq_zero (Nat.le_zero.mp h)
      subst hb
      simp [bool_chunks, read_bool_chunks]
  | succ fuel ih =>
      intro bs rest h
      cases bs with
      | nil => simp [bool_chunks, read_bool_chunks]
      | cons b t =>
          have hchunks : bool_chunks (b :: t)
              = ((b :: t).take 32) :: bool_chunks ((b :: t).drop 32) := by
            rw [bool_chunks]
          have hglen : ((b :: t).take 32).length = min (t.length + 1) 32 := by
            simp [List.length_take]
            omega
          have hpacklt : pack_bits ((b :: t).take 32) < 256 ^ 4 := by
            have h1 := pack_bits_lt ((b :: t).take 32)
            have h2 : (2 : ℕ) ^ ((b :: t).take 32).length ≤ 2 ^ 32 := by
              apply Nat.pow_le_pow_right (by norm_num)
              rw [hglen]
              omega
            calc pack_bits ((b :: t).take 32) < 2 ^ ((b :: t).take 32).length := h1
              _ ≤ 2 ^ 32 := h2
              _ = 256 ^ 4 := by norm_num
          rw [hchunks]
          simp only [List.flatMap_cons, List.append_assoc]
          show read_bool_chunks (t.length + 1) _ = _
          rw [read_bool_chunks]
          rw [readWord_writeWord_of_lt _ _ _ hpacklt]
          simp only [Option.some_bind]
          have hcount : min (t.length + 1) 32 = ((b :: t).take 32).length := hglen.symm
          have hrem : t.length + 1 - min (t.length + 1) 32 = ((b :: t).drop 32).length := by
            simp [List.length_drop, List.length_cons]
            omega
          have hrest := ih ((b :: t).drop 32) rest
            (by simp only [List.length_drop, List.length_cons] at h ⊢; omega)
          rw [hrem, hrest]
          show some (unpack_bits (pack_bits ((b :: t).take 32)) (min (t.length + 1) 32)
              ++ (b :: t).drop 32, rest) = some (b :: t, rest)
          rw [hcount, unpack_pack, List.take_append_drop]

theorem deserialize_serialize_vector_bool (bs : List Bool) (rest : List ℕ)
    (hn : bs.length < 256 ^ 8) :
    deserialize_vector_bool (serialize_vector_bool bs ++ rest) = some (bs, rest) := by
  unfold serialize_vector_bool deserialize_vector_bool
  rw [List.append_assoc, readWord_writeWord_of_lt _ _ _ hn]
  simp only [Option.some_bind]
  exact read_bool_chunks_roundtrip bs.length bs rest le_rfl

theorem bool_chunks_length_aux (fuel : ℕ) :
    ∀ bs : List Bool, bs.length ≤ fuel →
      (bool_chunks bs).length = (bs.length + 31) / 32 := by
  induction fuel with
  | zero =>
      intro bs h
      have hb : bs = [] := List.eq_nil_of_length_eq_zero (Nat.le_zero.mp h)
      subst hb
      simp [bool_chunks]
  | succ fuel ih =>
      intro bs h
      cases bs with
      | nil => simp [bool_chunks]
      | cons b t =>
          rw [bool_chunks]
          have hrec := ih ((b :: t).drop 32)
            (by simp only [List.length_drop, List.length_cons] at h ⊢; omega)
          simp only [List.length_drop, List.length_cons] at hrec
          simp only [List.length_cons, hrec]
          omega

theorem bool_chunks_length_eq (bs : List Bool) :
    (bool_chunks bs).length = (bs.length + 31) / 32 :=
  bool_chunks_length_aux bs.length bs le_rfl

theorem bool_chunks_getD (i : ℕ) : ∀ bs : List Bool,
    (bool_chunks bs).getD i [] = (bs.drop (32 * i)).take 32 := by
  induction i with
  | zero =>
      intro bs
      cases bs with
      | nil => simp [bool_chunks]
      | cons b t =>
          rw [bool_chunks]
          simp
  | succ i ih =>
      intro bs
      cases bs with
      | nil => simp [bool_chunks]
      | cons b t =>
          rw [bool_chunks]
          simp only [List.getD_cons_succ]
          rw [ih, List.drop_drop]
          congr 2
          omega

theorem bool_word_bit_layout (bs : List Bool) (i j : ℕ) (hj : j < 32)
    (hij : 32 * i + j < bs.length) :
    Nat.testBit (((bool_chunks bs).map pack_bits).getD i 0) j
      = bs.getD (32 * i + j) false := by
  have hilen : i < (bool_chunks bs).length := by
    rw [bool_chunks_length_eq]
    omega
  have hmap : ((bool_chunks bs).map pack_bits).getD i 0
      = pack_bits ((bool_chunks bs).getD i []) := by
    rw [List.getD_eq_getElem _ 0 (by simpa using hilen),
      List.getD_eq_getElem _ [] hilen, List.getElem_map]
  rw [hmap, pack_bits_testBit, bool_chunks_getD]
  have h1 : j < ((bs.drop (32 * i)).take 32).length := by
    simp [List.length_take, List.length_drop]
    omega
  rw [List.getD_eq_getElem _ false h1, List.getD_eq_getElem _ false hij]
  simp [List.getElem_take, List.getElem_drop]

set_option maxHeartbeats 2000000 in
/-- C7: serializing a triangle mesh with the output archive and reading the
result back with the input archive returns every component array unchanged
(and leaves the rest of the stream untouched); moreover every array is
written as a 64-bit count followed by its elements, a bool array occupies
ceil(size/32) 32-bit sets, and bit `j` of set `i` holds element `32 * i + j`. -/
theorem triangle_mesh_s11n_roundtrip (w : mesh_widths) (m : triangle_mesh)
    (rest : List ℕ) (hwf : mesh_wf w m) :
    deserialize_triangle_mesh w (serialize_triangle_mesh m ++ rest) = some (m, rest)
    ∧ (∀ es : List (List ℕ), serialize_vector es = writeWord 8 es.length ++ es.flatten)
    ∧ (∀ bs : List Bool, (bool_chunks bs).length = (bs.length + 31) / 32)
    ∧ (∀ (bs : List Bool) (i j : ℕ), j < 32 → 32 * i + j < bs.length →
        Nat.testBit (((bool_chunks bs).map pack_bits).getD i 0) j
          = bs.getD (32 * i + j) false) := by
  obtain ⟨⟨he1, hn1⟩, ⟨he2, hn2⟩, ⟨he3, hn3⟩, ⟨he4, hn4⟩, ⟨he5a, hn5a⟩,
    ⟨he5b, hn5b⟩, ⟨he6, hn6⟩, ⟨he7, hn7⟩, ⟨he8, hn8⟩, hn9, hn10, ⟨he11, hn11⟩⟩ := hwf
  refine ⟨?_, fun es => rfl, bool_chunks_length_eq,
    fun bs i j hj hij => bool_word_bit_layout bs i j hj hij⟩
  unfold serialize_triangle_mesh deserialize_triangle_mesh
  unfold serialize_static_tree deserialize_static_tree
  simp only [List.append_assoc]
  rw [deserialize_serialize_vector _ _ _ he1 hn1]
  simp only [Option.some_bind]
  rw [deserialize_serialize_vector _ _ _ he2 hn2]
  simp only [Option.some_bind]
  rw [deserialize_serialize_vector _ _ _ he3 hn3]
  simp only [Option.some_bind]
  rw [deserialize_serialize_vector _ _ _ he4 hn4]
  simp only [Option.some_bind]
  rw [deserialize_serialize_vector _ _ _ he5a hn5a]
  simp only [Option.some_bind]
  rw [deserialize_serialize_vector _ _ _ he5b hn5b]
  simp only [Option.some_bind]
  rw [deserialize_serialize_vector _ _ _ he6 hn6]
  simp only [Option.some_bind]
  rw [deserialize_serialize_vector _ _ _ he7 hn7]
  simp only [Option.some_bind]
  rw [deserialize_serialize_vector _ _ _ he8 hn8]
  simp only [Option.some_bind]
  rw [deserialize_serialize_vector_bool _ _ hn9]
  simp only [Option.some_bind]
  rw [deserialize_serialize_vector_bool _ _ hn10]
  simp only [Option.some_bind]
  rw [deserialize_serialize_vector _ _ _ he11 hn11]
  rfl

/-- Witness: the round-trip holds at a concrete mesh with trailing stream. -/
theorem triangle_mesh_s11n_roundtrip_witness :
    deserialize_triangle_mesh c7_widths (serialize_triangle_mesh c7_mesh ++ [])
      = some (c7_mesh, []) :=
  (triangle_mesh_s11n_roundtrip c7_widths c7_mesh []
    (by norm_num [mesh_wf, vec_wf, c7_mesh, c7_widths])).1

end edyn
